import Mathlib

/-!
Verification of the Keithley 2470 driver (src/keithley/Keithley2470.py).

Shallow embedding conventions:
* Python floats are modelled as exact rationals; in particular the source
  expression (x**2)**.5 is the absolute value and is embedded as |x|.
* The instrument is modelled as an echo device: a voltage write makes a
  subsequent voltage query return exactly the written value, and an output
  write sets the output state.  This is the assumption the ramp loop of
  Keithley2470SafeForLGADs.set_source_voltage needs in order to walk the
  voltage, and it is what the spec also assumes.
* The busy-flag transport layer of Keithley2470.write/read/query is modelled
  separately as an interleaving machine whose atomic steps are the individual
  interpreter actions of those methods (flag check, flag assignment, wire
  send, wire receive).
-/

namespace Keithley

/-- Error kinds raised by the Python driver: ValueError, TypeError and
RuntimeError as they appear in Keithley2470.py. -/
inductive Err where
  | valueError
  | typeError
  | runtimeError
deriving DecidableEq

/-- Transport-level events issued by the driver.  The writeVolt, writeOutput
and writeBeep constructors are commands sent with resource.write; queryOutput
and queryVolt are resource.query transactions, which read device state but do
not change it. -/
inductive Ev where
  | writeVolt (v : ℚ)
  | writeOutput (b : Bool)
  | writeBeep (f t : ℚ)
  | queryOutput
  | queryVolt
deriving DecidableEq

/-- Predicate selecting transport writes (as opposed to queries). -/
def Ev.isWrite : Ev → Bool
  | Ev.writeVolt _ => true
  | Ev.writeOutput _ => true
  | Ev.writeBeep _ _ => true
  | Ev.queryOutput => false
  | Ev.queryVolt => false

/-- Observable state of the instrument: output on or off, and the source
voltage level. -/
structure DevState where
  output : Bool
  volt : ℚ
deriving DecidableEq

/-- Echo-device semantics: how one transport event changes the device state.
Queries leave the state unchanged. -/
def DevState.applyEv (s : DevState) : Ev → DevState
  | Ev.writeVolt v => { s with volt := v }
  | Ev.writeOutput b => { s with output := b }
  | _ => s

/-- Device state after a whole event list. -/
def runEvs (s : DevState) (evs : List Ev) : DevState :=
  evs.foldl DevState.applyEv s

/-- The sequence of voltage values written in an event list. -/
def writtenVolts (evs : List Ev) : List ℚ :=
  evs.filterMap fun e => match e with
    | Ev.writeVolt v => some v
    | _ => none

/-- Embeds the Python str.lower call: ASCII lowercasing of every character,
which is all the driver needs for the tokens it compares against. -/
def lowerStr (s : String) : String := ⟨s.data.map Char.toLower⟩

/-- Embeds the Python str.upper call, analogous to lowerStr. -/
def upperStr (s : String) : String := ⟨s.data.map Char.toUpper⟩

/-- Embeds voltage = self._polarity*(voltage**2)**.5 from
Keithley2470SafeForLGADs.set_source_voltage: over exact rationals the square
root of the square is the absolute value. -/
def coerceVolt (pol : Int) (v : ℚ) : ℚ := (pol : ℚ) * |v|

/-- Embeds the while-True ramp loop of
Keithley2470SafeForLGADs.set_source_voltage under the echo-device assumption
(every self.get_source_voltage() call returns the last written value, tracked
here as cur).  Each stepping iteration issues three voltage queries and one
voltage write; the final iteration issues one query and writes the target
exactly.  Recursion is on a fuel counter since the Python loop has no bound of
its own; none means the fuel was exhausted before the loop finished. -/
def rampEvents (target step : ℚ) : ℚ → Nat → Option (List Ev)
  | _, 0 => none
  | cur, fuel + 1 =>
    if |target - cur| > step then
      (rampEvents target step (if target - cur > step then cur + step else cur - step) fuel).map
        fun evs => Ev.queryVolt :: Ev.queryVolt :: Ev.queryVolt ::
          Ev.writeVolt (if target - cur > step then cur + step else cur - step) :: evs
    else
      some [Ev.queryVolt, Ev.writeVolt target]

/-- Embeds Keithley2470SafeForLGADs.set_source_voltage: coerce the requested
voltage to the fixed polarity, query the output state, then either write the
target directly (output off) or run the ramp loop (output on).  Returns the
transport event list; none means the ramp fuel ran out. -/
def safeSetSourceVoltage (pol : Int) (step : ℚ) (s : DevState) (requested : ℚ)
    (fuel : Nat) : Option (List Ev) :=
  if s.output = false then
    some [Ev.queryOutput, Ev.writeVolt (coerceVolt pol requested)]
  else
    (rampEvents (coerceVolt pol requested) step s.volt fuel).map
      fun evs => Ev.queryOutput :: evs

/-- Embeds Keithley2470.set_output: validate that the upper-cased token is ON
or OFF before any transport call, else one output write. -/
def baseSetOutput (state : String) : Except Err Unit × List Ev :=
  if upperStr state ∈ ["ON", "OFF"] then
    (Except.ok (), [Ev.writeOutput (upperStr state == "ON")])
  else
    (Except.error Err.valueError, [])

/-- Embeds Keithley2470SafeForLGADs.set_output.  The Python method first
compares state.lower() against the literal off token; any other token is
treated as a request to switch on.  Both branches query the output state
before anything else; the non-off branch, when the output is off, captures the
current source voltage, writes a raw 0, issues the raw output command (which
is where an invalid token finally raises, after those transport calls), and
then ramps back up to the captured voltage. -/
def safeSetOutput (pol : Int) (step : ℚ) (s : DevState) (state : String)
    (fuel : Nat) : Option (Except Err Unit × List Ev) :=
  if lowerStr state = "off" then
    if s.output = false then
      some (Except.ok (), [Ev.queryOutput])
    else
      match safeSetSourceVoltage pol step s 0 fuel with
      | none => none
      | some evs₁ =>
        match baseSetOutput state with
        | (Except.error e, _) => some (Except.error e, Ev.queryOutput :: evs₁)
        | (Except.ok _, evs₂) => some (Except.ok (), Ev.queryOutput :: (evs₁ ++ evs₂))
  else
    if s.output = true then
      some (Except.ok (), [Ev.queryOutput])
    else
      match baseSetOutput state with
      | (Except.error e, _) =>
        some (Except.error e, [Ev.queryOutput, Ev.queryVolt, Ev.writeVolt 0])
      | (Except.ok _, evs₂) =>
        match safeSetSourceVoltage pol step
            (runEvs s ([Ev.queryOutput, Ev.queryVolt, Ev.writeVolt 0] ++ evs₂))
            s.volt fuel with
        | none => none
        | some evs₃ =>
          some (Except.ok (), ([Ev.queryOutput, Ev.queryVolt, Ev.writeVolt 0] ++ evs₂) ++ evs₃)

/-- Embeds Keithley2470.beep for numeric arguments: frequency bounds are
checked first, then the duration upper bound, and only then is the single
beeper command written. -/
def beep (frequency time : ℚ) : Except Err Unit × List Ev :=
  if ¬ (200 ≤ frequency ∧ frequency ≤ 5000) then
    (Except.error Err.valueError, [])
  else if time > 1 then
    (Except.error Err.valueError, [])
  else
    (Except.ok (), [Ev.writeBeep frequency time])

/-- Ramp configuration stored by Keithley2470SafeForLGADs.__init__: the
polarity sign and the two ramp parameters. -/
structure SafeCfg where
  polarity : Int
  slew_rate : ℚ
  volt_step : ℚ
deriving DecidableEq

/-- Default slew_rate argument of Keithley2470SafeForLGADs.__init__. -/
def defaultSlewRate : ℚ := 10

/-- Default volt_step argument of Keithley2470SafeForLGADs.__init__. -/
def defaultVoltStep : ℚ := 5 / 2

/-- Embeds the argument handling of Keithley2470SafeForLGADs.__init__: the
polarity token is validated, the ramp parameters are stored without any
check. -/
def safeInit (polarity : String) (slew_rate volt_step : ℚ) : Except Err SafeCfg :=
  if polarity ∈ ["positive", "negative"] then
    Except.ok ⟨if polarity = "positive" then 1 else -1, slew_rate, volt_step⟩
  else
    Except.error Err.typeError

/-- A safe controller together with the observable device state. -/
structure Ctrl where
  cfg : SafeCfg
  dev : DevState
deriving DecidableEq

/-- Controller-level set_source_voltage: runs the emitted events on the echo
device.  The Python class has no assignment to _polarity, _slew_rate or
_volt_step outside __init__, so the configuration is read-only here. -/
def Ctrl.setSourceVoltage (c : Ctrl) (requested : ℚ) (fuel : Nat) : Option Ctrl :=
  (safeSetSourceVoltage c.cfg.polarity c.cfg.volt_step c.dev requested fuel).map
    fun evs => ⟨c.cfg, runEvs c.dev evs⟩

/-- Controller-level set_output, analogous to Ctrl.setSourceVoltage. -/
def Ctrl.setOutput (c : Ctrl) (state : String) (fuel : Nat) : Option Ctrl :=
  (safeSetOutput c.cfg.polarity c.cfg.volt_step c.dev state fuel).map
    fun r => ⟨c.cfg, runEvs c.dev r.2⟩

/-- The observable actions performed by Keithley2470.__init__ after a
successful identity check, in source order. -/
inductive InitStep where
  | openResource
  | queryIdn
  | registerAtexitHook
  | measureVoltage
  | setSourceVoltageZero
  | setOutputOff
deriving DecidableEq

/-- Embeds the body of Keithley2470.__init__: open the VISA resource, query
the identity, register the atexit shutdown callback, perform the warm-up
measurement, set the voltage to zero, switch the output off. -/
def initSteps : List InitStep :=
  [InitStep.openResource, InitStep.queryIdn, InitStep.registerAtexitHook,
   InitStep.measureVoltage, InitStep.setSourceVoltageZero, InitStep.setOutputOff]

/-! Interleaving model of the busy-flag transport layer
(Keithley2470.write, Keithley2470.read, Keithley2470.query).  Each method is
a list of atomic interpreter steps; the flag check of a while loop and the
flag assignment after it are separate steps, exactly as in Python. -/

/-- Atomic interpreter steps of the transport methods. -/
inductive MStep where
  | guardNotWriting
  | guardNotReading
  | guardNotWritingNotReading
  | setWriting (b : Bool)
  | setReading (b : Bool)
  | send
  | receive
deriving DecidableEq

/-- The two busy flags _is_writing and _is_reading. -/
structure Flags where
  isWriting : Bool
  isReading : Bool
deriving DecidableEq

/-- Steps that touch the wire. -/
def MStep.isTransport : MStep → Bool
  | MStep.send => true
  | MStep.receive => true
  | _ => false

/-- Whether a step can run now: a guard step spins (does not advance) while
its flag is set; every other step always runs. -/
def stepOk (f : Flags) : MStep → Bool
  | MStep.guardNotWriting => !f.isWriting
  | MStep.guardNotReading => !f.isReading
  | MStep.guardNotWritingNotReading => !f.isWriting && !f.isReading
  | _ => true

/-- Effect of a step on the flags. -/
def applyStep (f : Flags) : MStep → Flags
  | MStep.setWriting b => { f with isWriting := b }
  | MStep.setReading b => { f with isReading := b }
  | _ => f

/-- Keithley2470.write as a step list: spin on _is_writing, set it, send,
clear it. -/
def writeProg : List MStep :=
  [MStep.guardNotWriting, MStep.setWriting true, MStep.send, MStep.setWriting false]

/-- Keithley2470.read as a step list. -/
def readProg : List MStep :=
  [MStep.guardNotReading, MStep.setReading true, MStep.receive, MStep.setReading false]

/-- Keithley2470.query as a step list: spin on both flags, set both, send and
receive as the two halves of resource.query, clear both. -/
def queryProg : List MStep :=
  [MStep.guardNotWritingNotReading, MStep.setWriting true, MStep.setReading true,
   MStep.send, MStep.receive, MStep.setWriting false, MStep.setReading false]

/-- Thread identifiers for a two-thread execution. -/
inductive Tid where
  | t0
  | t1
deriving DecidableEq

/-- A two-thread system: the flags, the remaining steps of each thread, and
the log of wire events with the thread that issued each. -/
structure Sys where
  flags : Flags
  rem0 : List MStep
  rem1 : List MStep
  log : List (Tid × MStep)
deriving DecidableEq

/-- Run a schedule: at each schedule entry the named thread attempts its next
step; a guard whose flag is set leaves the thread where it is (it spins). -/
def runSched : List Tid → Sys → Sys
  | [], s => s
  | t :: rest, s =>
    match t, (match t with | Tid.t0 => s.rem0 | Tid.t1 => s.rem1) with
    | _, [] => runSched rest s
    | Tid.t0, m :: ms =>
      if stepOk s.flags m then
        runSched rest
          { flags := applyStep s.flags m, rem0 := ms, rem1 := s.rem1,
            log := if m.isTransport then s.log ++ [(Tid.t0, m)] else s.log }
      else runSched rest s
    | Tid.t1, m :: ms =>
      if stepOk s.flags m then
        runSched rest
          { flags := applyStep s.flags m, rem0 := s.rem0, rem1 := ms,
            log := if m.isTransport then s.log ++ [(Tid.t1, m)] else s.log }
      else runSched rest s

deriving instance DecidableEq for Except

/-- Helper: when the remaining gap exceeds volt_step, the intermediate value
chosen by the ramp loop reduces the gap by exactly volt_step. -/
theorem ramp_gap_dec (target step cur : ℚ) (hstep : 0 < step)
    (hgap : step < |target - cur|) :
    |target - (if target - cur > step then cur + step else cur - step)|
      = |target - cur| - step := by
  rcases le_or_lt (target - cur) step with hle | hlt
  · have hneg : target - cur < -step := by
      rcases abs_cases (target - cur) with ⟨h1, h2⟩ | ⟨h1, h2⟩
      · linarith
      · linarith
    rw [if_neg (not_lt.mpr hle)]
    have h1 : target - (cur - step) = (target - cur) + step := by ring
    rw [h1, abs_of_neg (show target - cur < 0 by linarith),
      abs_of_neg (show (target - cur) + step < 0 by linarith)]
    ring
  · rw [if_pos hlt]
    have h1 : target - (cur + step) = (target - cur) - step := by ring
    rw [h1, abs_of_pos (show (0 : ℚ) < target - cur by linarith),
      abs_of_nonneg (show (0 : ℚ) ≤ (target - cur) - step by linarith)]

/-- Unfolding equation for one iteration of the ramp loop. -/
theorem rampEvents_succ (target step cur : ℚ) (fuel : Nat) :
    rampEvents target step cur (fuel + 1) =
      if |target - cur| > step then
        (rampEvents target step (if target - cur > step then cur + step else cur - step) fuel).map
          fun evs => Ev.queryVolt :: Ev.queryVolt :: Ev.queryVolt ::
            Ev.writeVolt (if target - cur > step then cur + step else cur - step) :: evs
      else
        some [Ev.queryVolt, Ev.writeVolt target] := rfl

/-- Master lemma about the ramp loop: with enough fuel for the initial gap,
the loop terminates, the last written voltage is the target, consecutive
values (starting from the current device voltage) differ by at most
volt_step, every event is a voltage query or a voltage write, and running the
events on the echo device sets its voltage to the target. -/
theorem rampEvents_spec (target step : ℚ) (hstep : 0 < step) :
    ∀ (fuel : Nat) (cur : ℚ), |target - cur| ≤ (fuel : ℚ) * step →
      ∃ evs, rampEvents target step cur (fuel + 1) = some evs ∧
        (writtenVolts evs).getLast? = some target ∧
        List.Chain (fun a b => |b - a| ≤ step) cur (writtenVolts evs) ∧
        (∀ e ∈ evs, e = Ev.queryVolt ∨ ∃ v, e = Ev.writeVolt v) ∧
        (∀ s : DevState, runEvs s evs = { s with volt := target }) := by
  intro fuel
  induction fuel with
  | zero =>
    intro cur hcur
    push_cast at hcur
    have h0 : |target - cur| ≤ step := by
      have := abs_nonneg (target - cur)
      linarith
    refine ⟨[Ev.queryVolt, Ev.writeVolt target], ?_, by simp [writtenVolts], ?_, ?_, fun s => rfl⟩
    · rw [rampEvents_succ, if_neg (not_lt.mpr h0)]
    · simpa [writtenVolts] using h0
    · intro e he
      simp only [List.mem_cons, List.not_mem_nil, or_false] at he
      rcases he with h | h
      · exact Or.inl h
      · exact Or.inr ⟨target, h⟩
  | succ n ih =>
    intro cur hcur
    push_cast at hcur
    by_cases hgap : |target - cur| ≤ step
    · refine ⟨[Ev.queryVolt, Ev.writeVolt target], ?_, by simp [writtenVolts], ?_, ?_, fun s => rfl⟩
      · rw [rampEvents_succ, if_neg (not_lt.mpr hgap)]
      · simpa [writtenVolts] using hgap
      · intro e he
        simp only [List.mem_cons, List.not_mem_nil, or_false] at he
        rcases he with h | h
        · exact Or.inl h
        · exact Or.inr ⟨target, h⟩
    · have hgap' : step < |target - cur| := not_le.mp hgap
      set next := if target - cur > step then cur + step else cur - step with hnext
      have hdec : |target - next| = |target - cur| - step :=
        ramp_gap_dec target step cur hstep hgap'
      have hfuel' : |target - next| ≤ (n : ℚ) * step := by
        rw [hdec]
        linarith
      obtain ⟨evs', heq, hlast, hchain, hkinds, hrun⟩ := ih next hfuel'
      refine ⟨Ev.queryVolt :: Ev.queryVolt :: Ev.queryVolt :: Ev.writeVolt next :: evs',
        ?_, ?_, ?_, ?_, ?_⟩
      · rw [rampEvents_succ, ← hnext, if_pos hgap', heq]
        rfl
      · have hw : writtenVolts (Ev.queryVolt :: Ev.queryVolt :: Ev.queryVolt ::
            Ev.writeVolt next :: evs') = next :: writtenVolts evs' := by
          simp [writtenVolts]
        rw [hw]
        have hne : writtenVolts evs' ≠ [] := by
          intro h
          rw [h] at hlast
          cases hlast
        cases hv : writtenVolts evs' with
        | nil => exact absurd hv hne
        | cons b l =>
          rw [hv] at hlast
          rw [List.getLast?_cons_cons]
          exact hlast
      · have hw : writtenVolts (Ev.queryVolt :: Ev.queryVolt :: Ev.queryVolt ::
            Ev.writeVolt next :: evs') = next :: writtenVolts evs' := by
          simp [writtenVolts]
        rw [hw]
        refine List.chain_cons.mpr ⟨?_, hchain⟩
        rw [hnext]
        rcases le_or_lt (target - cur) step with hle | hlt
        · rw [if_neg (not_lt.mpr hle)]
          have h1 : cur - step - cur = -step := by ring
          rw [h1, abs_neg, abs_of_pos hstep]
        · rw [if_pos hlt]
          have h1 : cur + step - cur = step := by ring
          rw [h1, abs_of_pos hstep]
      · intro e he
        simp only [List.mem_cons] at he
        rcases he with h | h | h | h | h
        · exact Or.inl h
        · exact Or.inl h
        · exact Or.inl h
        · exact Or.inr ⟨next, h⟩
        · exact hkinds e h
      · intro s
        exact hrun { s with volt := next }

/-- C2: for every requested voltage and fixed polarity, once
Keithley2470SafeForLGADs.set_source_voltage returns (modelled with enough
ramp fuel for the initial gap), the last voltage written to the device is
polarity times the absolute value of the request, both when the output
started on and when it started off. -/
theorem set_source_voltage_last_write (pol : Int) (step requested : ℚ)
    (s : DevState) (fuel : Nat) (hstep : 0 < step)
    (hfuel : |coerceVolt pol requested - s.volt| ≤ (fuel : ℚ) * step) :
    ∃ evs, safeSetSourceVoltage pol step s requested (fuel + 1) = some evs ∧
      (writtenVolts evs).getLast? = some ((pol : ℚ) * |requested|) := by
  by_cases hout : s.output = false
  · refine ⟨[Ev.queryOutput, Ev.writeVolt (coerceVolt pol requested)], ?_, ?_⟩
    · simp [safeSetSourceVoltage, hout]
    · simp [writtenVolts, coerceVolt]
  · obtain ⟨evs, h1, h2, -, -, -⟩ :=
      rampEvents_spec (coerceVolt pol requested) step hstep fuel s.volt hfuel
    refine ⟨Ev.queryOutput :: evs, ?_, ?_⟩
    · simp [safeSetSourceVoltage, hout, h1]
    · simpa [writtenVolts, coerceVolt] using h2

/-- Witness for set_source_voltage_last_write: polarity negative, volt_step
5/2, output on at 0 V, requesting 10 V, which ends at -10 V. -/
theorem set_source_voltage_last_write_witness :
    ∃ evs, safeSetSourceVoltage (-1) (5/2) ⟨true, 0⟩ 10 (4 + 1) = some evs ∧
      (writtenVolts evs).getLast? = some (((-1 : Int) : ℚ) * |(10 : ℚ)|) :=
  set_source_voltage_last_write (-1) (5/2) 10 ⟨true, 0⟩ 4 (by norm_num)
    (by norm_num [coerceVolt])

/-- C3: while the output is on, the voltages written by consecutive
iterations of the ramp loop of Keithley2470SafeForLGADs.set_source_voltage
differ by at most volt_step, for every target and starting voltage (under
the echo-device assumption built into the model). -/
theorem ramp_consecutive_writes_bounded (pol : Int) (step requested : ℚ)
    (s : DevState) (fuel : Nat) (hout : s.output = true) (hstep : 0 < step)
    (hfuel : |coerceVolt pol requested - s.volt| ≤ (fuel : ℚ) * step) :
    ∃ evs, safeSetSourceVoltage pol step s requested (fuel + 1) = some evs ∧
      List.Chain' (fun a b => |b - a| ≤ step) (writtenVolts evs) := by
  obtain ⟨evs, h1, -, hchain, -, -⟩ :=
    rampEvents_spec (coerceVolt pol requested) step hstep fuel s.volt hfuel
  refine ⟨Ev.queryOutput :: evs, ?_, ?_⟩
  · simp [safeSetSourceVoltage, hout, h1]
  · have hw : writtenVolts (Ev.queryOutput :: evs) = writtenVolts evs := by
      simp [writtenVolts]
    rw [hw]
    cases hv : writtenVolts evs with
    | nil => exact trivial
    | cons b l => exact (List.chain_cons.mp (hv ▸ hchain)).2

/-- Witness for ramp_consecutive_writes_bounded: polarity positive, volt_step
2, output on at 0 V, requesting -7 V. -/
theorem ramp_consecutive_writes_bounded_witness :
    ∃ evs, safeSetSourceVoltage 1 2 ⟨true, 0⟩ (-7) (4 + 1) = some evs ∧
      List.Chain' (fun a b => |b - a| ≤ 2) (writtenVolts evs) :=
  ramp_consecutive_writes_bounded 1 2 (-7) ⟨true, 0⟩ 4 rfl (by norm_num)
    (by norm_num [coerceVolt])

/-- C4: under the echo-device assumption and a positive volt_step, the ramp
loop terminates (some fuel suffices), it exits exactly when the remaining
gap is at most volt_step, and every non-final iteration reduces the gap by
exactly volt_step. -/
theorem ramp_terminates (target step cur : ℚ) (hstep : 0 < step) :
    (∃ fuel, (rampEvents target step cur fuel).isSome = true) ∧
    (∀ fuel : Nat,
      rampEvents target step cur (fuel + 1) = some [Ev.queryVolt, Ev.writeVolt target]
        ↔ |target - cur| ≤ step) ∧
    (step < |target - cur| →
      |target - (if target - cur > step then cur + step else cur - step)|
        = |target - cur| - step) := by
  refine ⟨?_, ?_, fun h => ramp_gap_dec target step cur hstep h⟩
  · have hfuel : |target - cur| ≤ ((Nat.ceil (|target - cur| / step) : ℚ)) * step := by
      have h1 : |target - cur| / step ≤ (Nat.ceil (|target - cur| / step) : ℚ) :=
        Nat.le_ceil _
      have h2 : |target - cur| / step * step = |target - cur| :=
        div_mul_cancel₀ _ (ne_of_gt hstep)
      calc |target - cur| = |target - cur| / step * step := h2.symm
        _ ≤ ((Nat.ceil (|target - cur| / step) : ℚ)) * step :=
          mul_le_mul_of_nonneg_right h1 (le_of_lt hstep)
    obtain ⟨evs, h1, -, -, -, -⟩ :=
      rampEvents_spec target step hstep (Nat.ceil (|target - cur| / step)) cur hfuel
    exact ⟨Nat.ceil (|target - cur| / step) + 1, by rw [h1]; rfl⟩
  · intro fuel
    constructor
    · intro heq
      by_contra hgt
      have hgap : step < |target - cur| := not_le.mp hgt
      rw [rampEvents_succ, if_pos hgap] at heq
      rcases Option.map_eq_some'.mp heq with ⟨evs', -, hf⟩
      simp at hf
    · intro hle
      rw [rampEvents_succ, if_neg (not_lt.mpr hle)]

/-- Witness for ramp_terminates: target -10 V from 0 V with volt_step 5/2. -/
theorem ramp_terminates_witness :
    (∃ fuel, (rampEvents (-10) (5/2) 0 fuel).isSome = true) ∧
    (∀ fuel : Nat,
      rampEvents (-10) (5/2) 0 (fuel + 1) = some [Ev.queryVolt, Ev.writeVolt (-10)]
        ↔ |(-10 : ℚ) - 0| ≤ 5/2) ∧
    ((5 : ℚ)/2 < |(-10 : ℚ) - 0| →
      |(-10 : ℚ) - (if (-10 : ℚ) - 0 > 5/2 then 0 + 5/2 else 0 - 5/2)|
        = |(-10 : ℚ) - 0| - 5/2) :=
  ramp_terminates (-10) (5/2) 0 (by norm_num)

/-- C5: calling Keithley2470SafeForLGADs.set_output with the off token while
the output is on first ramps the voltage to 0 (the last written voltage
before the output command is 0, and no output command occurs earlier) and
only then issues the single raw output-off write, leaving the device off at
0 V. -/
theorem set_output_off_ramps_first (pol : Int) (step : ℚ) (s : DevState)
    (fuel : Nat) (hout : s.output = true) (hstep : 0 < step)
    (hfuel : |s.volt| ≤ (fuel : ℚ) * step) :
    ∃ evs₀, safeSetOutput pol step s ("off") (fuel + 1)
        = some (Except.ok (), evs₀ ++ [Ev.writeOutput false]) ∧
      Ev.writeOutput false ∉ evs₀ ∧
      (writtenVolts evs₀).getLast? = some 0 ∧
      runEvs s (evs₀ ++ [Ev.writeOutput false]) = ⟨false, 0⟩ := by
  have h0 : coerceVolt pol 0 = 0 := by simp [coerceVolt]
  have hfuel' : |coerceVolt pol 0 - s.volt| ≤ (fuel : ℚ) * step := by
    rw [h0]
    simpa using hfuel
  obtain ⟨evs, h1, h2, -, hkinds, hrun⟩ :=
    rampEvents_spec (coerceVolt pol 0) step hstep fuel s.volt hfuel'
  have hnotoff : ¬ (s.output = false) := by simp [hout]
  have hset : safeSetSourceVoltage pol step s 0 (fuel + 1) = some (Ev.queryOutput :: evs) := by
    simp [safeSetSourceVoltage, hnotoff, h1]
  refine ⟨Ev.queryOutput :: Ev.queryOutput :: evs, ?_, ?_, ?_, ?_⟩
  · unfold safeSetOutput
    rw [if_pos (show lowerStr ("off") = "off" by decide), if_neg hnotoff, hset,
      show baseSetOutput ("off") = (Except.ok (), [Ev.writeOutput false]) by decide]
    rfl
  · intro hmem
    simp only [List.mem_cons] at hmem
    rcases hmem with h | h | h
    · cases h
    · cases h
    · rcases hkinds _ h with h' | ⟨v, h'⟩
      · cases h'
      · cases h'
  · have hw : writtenVolts (Ev.queryOutput :: Ev.queryOutput :: evs) = writtenVolts evs := by
      simp [writtenVolts]
    rw [hw, h2, h0]
  · have e1 : runEvs s ((Ev.queryOutput :: Ev.queryOutput :: evs) ++ [Ev.writeOutput false])
        = DevState.applyEv (runEvs s (Ev.queryOutput :: Ev.queryOutput :: evs))
            (Ev.writeOutput false) := by
      simp [runEvs]
    have e2 : runEvs s (Ev.queryOutput :: Ev.queryOutput :: evs) = runEvs s evs := rfl
    rw [e1, e2, hrun s, h0]
    rfl

/-- Witness for set_output_off_ramps_first: polarity negative, volt_step 5/2,
output on at -10 V. -/
theorem set_output_off_ramps_first_witness :
    ∃ evs₀, safeSetOutput (-1) (5/2) ⟨true, -10⟩ ("off") (4 + 1)
        = some (Except.ok (), evs₀ ++ [Ev.writeOutput false]) ∧
      Ev.writeOutput false ∉ evs₀ ∧
      (writtenVolts evs₀).getLast? = some 0 ∧
      runEvs ⟨true, -10⟩ (evs₀ ++ [Ev.writeOutput false]) = ⟨false, 0⟩ :=
  set_output_off_ramps_first (-1) (5/2) ⟨true, -10⟩ 4 rfl (by norm_num) (by norm_num)

/-- C6: requesting the output state the device already reports is a no-op:
Keithley2470SafeForLGADs.set_output issues a single output-state query, no
transport write at all, and leaves the device state unchanged. -/
theorem set_output_idempotent (pol : Int) (step : ℚ) (s : DevState) (fuel : Nat) :
    safeSetOutput pol step s (if s.output then "on" else "off") fuel
        = some (Except.ok (), [Ev.queryOutput]) ∧
      List.countP Ev.isWrite [Ev.queryOutput] = 0 ∧
      runEvs s [Ev.queryOutput] = s := by
  refine ⟨?_, by decide, rfl⟩
  cases hs : s.output with
  | false =>
    show safeSetOutput pol step s ("off") fuel = _
    unfold safeSetOutput
    rw [if_pos (show lowerStr ("off") = "off" by decide), if_pos hs]
  | true =>
    show safeSetOutput pol step s ("on") fuel = _
    unfold safeSetOutput
    rw [if_neg (show ¬ lowerStr ("on") = "off" by decide), if_pos hs]

/-- C1 evaluation: the busy-flag transport of Keithley2470 does not form one
shared mutual-exclusion domain.  In this complete two-thread execution,
thread t0 runs query and thread t1 runs write; t1 passes its busy-flag check
before t0 sets the writing flag, so the write's wire send lands strictly
between the query's send and its receive, and both operations still run to
completion.  This contradicts the claim that write, read and query never
interleave. -/
theorem busy_flags_allow_interleaving :
    runSched [Tid.t1, Tid.t0, Tid.t0, Tid.t0, Tid.t0,
        Tid.t1, Tid.t1, Tid.t1, Tid.t0, Tid.t0, Tid.t0]
      ⟨⟨false, false⟩, queryProg, writeProg, []⟩
      = ⟨⟨false, false⟩, [], [],
          [(Tid.t0, MStep.send), (Tid.t1, MStep.send), (Tid.t0, MStep.receive)]⟩ := by
  decide

/-- C7 evaluation: Keithley2470.set_output rejects an invalid state token
before any transport call, but Keithley2470SafeForLGADs.set_output first
queries the output state; with the output on it then silently accepts the
invalid token (no error at all), and with the output off it also writes a
raw 0 V to the device before the base class finally raises.  This
contradicts the claim that invalid arguments fail before any transport call
on both classes. -/
theorem safe_set_output_invalid_token :
    baseSetOutput ("banana") = (Except.error Err.valueError, []) ∧
    safeSetOutput (-1) 1 ⟨true, 10⟩ ("banana") 3
      = some (Except.ok (), [Ev.queryOutput]) ∧
    safeSetOutput (-1) 1 ⟨false, 0⟩ ("banana") 3
      = some (Except.error Err.valueError,
          [Ev.queryOutput, Ev.queryVolt, Ev.writeVolt 0]) := by
  decide

/-- C8 counterexample: Keithley2470.__init__ registers an atexit shutdown
callback, so constructing an instance does leave a hook installed for
automatic invocation at process exit, contrary to the claim. -/
theorem init_registers_atexit_hook :
    InitStep.registerAtexitHook ∈ initSteps := by decide

/-- C8 amended: construction registers exactly one automatic process-exit
shutdown hook (the atexit callback that sets the source voltage to 0 and
switches the output off). -/
theorem init_atexit_hook_count :
    initSteps.count InitStep.registerAtexitHook = 1 := by decide

/-- C9 counterexample: Keithley2470SafeForLGADs.__init__ accepts a
non-positive volt_step without any check, so construction does not establish
volt_step greater than zero. -/
theorem safe_init_accepts_nonpositive_volt_step :
    safeInit ("negative") 10 (-1) = Except.ok ⟨-1, 10, -1⟩ ∧ ¬ ((0 : ℚ) < -1) :=
  ⟨by decide, by norm_num⟩

/-- C9 amended: slew_rate and volt_step are immutable after construction (no
operation of the safe controller changes the stored configuration) and the
constructor defaults 10 and 2.5 are strictly positive, but construction
stores caller-supplied values without validating positivity. -/
theorem ramp_params_default_positive_and_immutable :
    0 < defaultSlewRate ∧ 0 < defaultVoltStep ∧
    safeInit ("positive") defaultSlewRate defaultVoltStep
      = Except.ok ⟨1, defaultSlewRate, defaultVoltStep⟩ ∧
    (∀ (c : Ctrl) (requested : ℚ) (fuel : Nat),
      ((c.setSourceVoltage requested fuel).getD c).cfg = c.cfg) ∧
    (∀ (c : Ctrl) (state : String) (fuel : Nat),
      ((c.setOutput state fuel).getD c).cfg = c.cfg) := by
  refine ⟨by norm_num [defaultSlewRate], by norm_num [defaultVoltStep], ?_, ?_, ?_⟩
  · unfold safeInit
    rw [if_pos (show ("positive" : String) ∈ ["positive", "negative"] by decide),
      if_pos (show ("positive" : String) = "positive" from rfl)]
  · intro c requested fuel
    cases h : safeSetSourceVoltage c.cfg.polarity c.cfg.volt_step c.dev requested fuel <;>
      simp [Ctrl.setSourceVoltage, h]
  · intro c state fuel
    cases h : safeSetOutput c.cfg.polarity c.cfg.volt_step c.dev state fuel <;>
      simp [Ctrl.setOutput, h]

/-- C10: for numeric arguments, Keithley2470.beep fails exactly when the
frequency is below 200, above 5000, or the duration exceeds 1; there is no
lower bound on the duration, and in the allowed domain (including zero and
negative durations) the call succeeds with exactly one transport write. -/
theorem beep_domain (frequency time : ℚ) :
    beep frequency time =
      (if frequency < 200 ∨ 5000 < frequency ∨ 1 < time
        then (Except.error Err.valueError, [])
        else (Except.ok (), [Ev.writeBeep frequency time])) ∧
    Ev.isWrite (Ev.writeBeep frequency time) = true := by
  refine ⟨?_, rfl⟩
  unfold beep
  by_cases h1 : 200 ≤ frequency ∧ frequency ≤ 5000
  · rw [if_neg (not_not_intro h1)]
    by_cases h2 : time > 1
    · rw [if_pos h2, if_pos (Or.inr (Or.inr h2))]
    · rw [if_neg h2, if_neg ?hc]
      case hc =>
        intro hC
        rcases hC with h | h | h
        · linarith [h1.1]
        · linarith [h1.2]
        · exact h2 h
  · rw [if_pos h1, if_pos ?hd]
    case hd =>
      rcases not_and_or.mp h1 with h | h
      · exact Or.inl (not_le.mp h)
      · exact Or.inr (Or.inl (not_le.mp h))

end Keithley
